import Mathlib

/-!
Verification of the Rust code-generation backend (`src/gull/src/codegen/rust.rs`).

The renderer walks a tree of type declarations and produces Rust source text,
collecting required `use` statements in a deduplicated, sorted import set.
The Rust implementation mutates a `RefCell<BTreeSet<&str>>` import collector;
here that collector is threaded explicitly as a sorted, duplicate-free
`List String`, and every `gen_*` method becomes a function from the collector
state to a pair of rendered text and updated collector state.
-/

/-- Modelled from the spec: `TPrimitive` is the closed primitive enumeration
`{String, Bool, Int64, Float64}` (the type lives in `definitions.rs`, which is
not part of the rendered sources; constructor names follow the match arms of
`gen_primitive_type`). -/
inductive TPrimitive where
  | String
  | Tbool
  | Ti64
  | Tf64
deriving DecidableEq, Repr

/-- Modelled from the spec: a `Reference` is an already-resolved handle to
another declaration exposing only its target-language name. -/
structure Reference where
  name : String
deriving DecidableEq, Repr

/-- Modelled from the spec: the value side of a `Map` shape is a primitive or
a reference (match arms of `gen_map`). -/
inductive TMapValue where
  | TPrimitive (p : TPrimitive)
  | Reference (r : Reference)
deriving DecidableEq, Repr

/-- Modelled from the spec: `Map{key: TPrimitive, value: TPrimitive|Reference}`. -/
structure TMap where
  key : TPrimitive
  value : TMapValue
deriving DecidableEq, Repr

/-- Modelled from the spec: `Vec{TPrimitive|Reference}` (match arms of `gen_vec`). -/
inductive TVec where
  | TPrimitive (p : TPrimitive)
  | Reference (r : Reference)
deriving DecidableEq, Repr

/-- Modelled from the spec: `Set{TPrimitive|Reference}` (match arms of `gen_set`). -/
inductive TSet where
  | TPrimitive (p : TPrimitive)
  | Reference (r : Reference)
deriving DecidableEq, Repr

/-- Modelled from the spec: `Option{TPrimitive|Reference|Map|Vec|Set}`
(match arms of `gen_option`; options never directly contain options or tuples). -/
inductive TOption where
  | Reference (r : Reference)
  | TPrimitive (p : TPrimitive)
  | TMap (m : TMap)
  | TVec (v : TVec)
  | TSet (s : TSet)
deriving DecidableEq, Repr

/-- Modelled from the spec: a tuple item is a primitive or a reference
(match arms of `gen_tuple`). -/
inductive TupleItem where
  | Reference (r : Reference)
  | TPrimitive (p : TPrimitive)
deriving DecidableEq, Repr

/-- Modelled from the spec: `Tuple{ordered sequence of TPrimitive|Reference}`. -/
structure TTuple where
  items : List TupleItem
deriving DecidableEq, Repr

/-- Modelled from the spec: a field-level attribute carrying raw Rust
attribute text, emitted verbatim (match arm of the field-config loop in
`gen_struct`). -/
inductive StructFieldConfig where
  | RustAttribute (attr : String)
deriving DecidableEq, Repr

/-- Modelled from the spec: the shape of a struct field (match arms of the
`field_type` dispatch in `gen_struct`). -/
inductive StructFieldType where
  | Reference (r : Reference)
  | TMap (m : TMap)
  | TOption (o : TOption)
  | TPrimitive (p : TPrimitive)
  | TTuple (t : TTuple)
  | TVec (v : TVec)
deriving DecidableEq, Repr

/-- Modelled from the spec: `StructField = {name, docs, config, field_type}`;
`docs` is a string where the empty string stands for absent documentation. -/
structure StructField where
  name : String
  docs : String
  config : List StructFieldConfig
  field_type : StructFieldType
deriving DecidableEq, Repr

/-- Modelled from the spec: `Struct` is a sequence of named, ordered fields. -/
structure TStruct where
  fields : List StructField
deriving DecidableEq, Repr

/-- Modelled from the spec: an enum variant payload is
`Empty | Tuple-of-shapes | Struct-of-fields` (match arms of `gen_enum`). -/
inductive EnumVariantType where
  | Empty
  | Tuple (t : TTuple)
  | Struct (s : TStruct)
deriving DecidableEq, Repr

/-- Modelled from the spec: `EnumVariant = {name, docs, variant_type}`. -/
structure EnumVariant where
  name : String
  docs : String
  variant_type : EnumVariantType
deriving DecidableEq, Repr

/-- Modelled from the spec: `Enum` is a sequence of named, ordered variants. -/
structure TEnum where
  variants : List EnumVariant
deriving DecidableEq, Repr

/-- Modelled from the spec: a declaration-level attribute carrying raw Rust
attribute text (match arm of the config loop in `gen_declaration`). -/
inductive TypeDeclarationConfig where
  | RustAttribute (attr : String)
deriving DecidableEq, Repr

/-- Modelled from the spec: `DeclarationValue` is the tagged variant of a
declaration (match arms of `gen_declaration`). -/
inductive DeclarationValue where
  | TPrimitive (p : TPrimitive)
  | TMap (m : TMap)
  | TTuple (t : TTuple)
  | TStruct (s : TStruct)
  | TEnum (e : TEnum)
  | Docs
deriving DecidableEq, Repr

/-- Modelled from the spec:
`TypeDeclaration = {name, docs: optional string, config, value}`;
`docs` is a string where the empty string stands for absent documentation. -/
structure TypeDeclaration where
  name : String
  docs : String
  config : List TypeDeclarationConfig
  value : DeclarationValue
deriving DecidableEq, Repr

/-- Modelled from the spec: `Declarations` is an ordered sequence of
`TypeDeclaration`. -/
structure Declarations where
  declarations : List TypeDeclaration
deriving DecidableEq, Repr

/-- Modelled from the spec: the two comment styles of the documentation
formatter (`docs.rs`, not part of the rendered sources): a plain/block style
(`//`) and a doc-comment style (`///`), as selected in `gen_declaration`. -/
inductive CommentStyle where
  | DoubleSlash
  | TripleSlash
deriving DecidableEq, Repr

/-- Modelled from the spec: the comment marker of each style. -/
def commentMarker : CommentStyle → String
  | CommentStyle.DoubleSlash => "//"
  | CommentStyle.TripleSlash => "///"

/-- Concatenation of a list of strings (the accumulating `push_str` loops). -/
def joinStrs : List String → String
  | [] => ""
  | s :: rest => s ++ joinStrs rest

/-- A run of `n` spaces: `" ".repeat(indent_level)`. -/
def spaces (n : Nat) : String :=
  String.mk (List.replicate n ' ')

/-- Split a character sequence at newline characters (structural helper for
the documentation formatter). -/
def splitLines : List Char → List (List Char)
  | [] => [[]]
  | c :: rest =>
    match splitLines rest with
    | [] => [[c]]
    | h :: t => if c = '\n' then [] :: h :: t else (c :: h) :: t

/-- Modelled from the spec: `format_docstring` (in `docs.rs`, not part of the
rendered sources) converts a doc string plus a comment style and an
indentation level into comment-prefixed, indented text with no trailing line
break, and returns nothing when the doc string is empty/absent. -/
def format_docstring (docs : String) (style : CommentStyle) (indent : Nat) : Option String :=
  if docs = "" then none
  else some (String.intercalate "\n"
    ((splitLines docs.data).map
      (fun line => spaces indent ++ commentMarker style ++ " " ++ String.mk line)))

/-- The import collector: `imports: RefCell<BTreeSet<&'static str>>`,
modelled as a strictly sorted, duplicate-free list of strings. `add_import`
(`self.imports.borrow_mut().insert(import)`) becomes sorted insertion that
skips an element already present. -/
def insertImport (l : List String) (s : String) : List String :=
  match l with
  | [] => [s]
  | x :: xs =>
    if s < x then s :: x :: xs
    else if s = x then x :: xs
    else x :: insertImport xs s

/-- The ordered-map import statement registered by `gen_map`. -/
def btreeMapImport : String := "use std::collections::BTreeMap;"

/-- The ordered-set import statement registered by `gen_set`. -/
def btreeSetImport : String := "use std::collections::BTreeSet;"

/-- `gen_primitive_type`: the fixed total mapping from primitives to Rust
spellings. -/
def gen_primitive_type (ty : TPrimitive) : String :=
  match ty with
  | TPrimitive.String => "String"
  | TPrimitive.Tbool => "bool"
  | TPrimitive.Ti64 => "i64"
  | TPrimitive.Tf64 => "f64"

/-- `gen_map`: renders `BTreeMap<key, value>` and registers the ordered-map
use statement. The first component is the rendered text, the second the
updated collector. -/
def gen_map (imp : List String) (m : TMap) : String × List String :=
  let value :=
    match m.value with
    | TMapValue.TPrimitive p => gen_primitive_type p
    | TMapValue.Reference d => d.name
  ("BTreeMap<" ++ gen_primitive_type m.key ++ ", " ++ value ++ ">",
    insertImport imp btreeMapImport)

/-- `gen_vec`: renders `Vec<element>`; registers no import. -/
def gen_vec (imp : List String) (v : TVec) : String × List String :=
  let value :=
    match v with
    | TVec.TPrimitive p => gen_primitive_type p
    | TVec.Reference d => d.name
  ("Vec<" ++ value ++ ">", imp)

/-- `gen_set`: renders `BTreeSet<element>` and registers the
ordered-set use statement. -/
def gen_set (imp : List String) (s : TSet) : String × List String :=
  let value :=
    match s with
    | TSet.TPrimitive p => gen_primitive_type p
    | TSet.Reference d => d.name
  ("BTreeSet<" ++ value ++ ">", insertImport imp btreeSetImport)

/-- `gen_option`: renders `Option<inner>`, recursing into the inner shape. -/
def gen_option (imp : List String) (o : TOption) : String × List String :=
  let vi :=
    match o with
    | TOption.Reference r => (r.name, imp)
    | TOption.TPrimitive p => (gen_primitive_type p, imp)
    | TOption.TMap m => gen_map imp m
    | TOption.TVec v => gen_vec imp v
    | TOption.TSet s => gen_set imp s
  ("Option<" ++ vi.1 ++ ">", vi.2)

/-- The rendered text of one tuple item (the `value` match inside the
`gen_tuple` loop). -/
def tupleItemText (item : TupleItem) : String :=
  match item with
  | TupleItem.Reference d => d.name
  | TupleItem.TPrimitive p => gen_primitive_type p

/-- The body of the `gen_tuple` loop: item `n` of `total` renders its text
followed by `", "` unless it is the last item. -/
def tupleJoin (items : List TupleItem) (n : Nat) (total : Nat) : String :=
  match items with
  | [] => ""
  | item :: rest =>
    tupleItemText item ++ (if n = total - 1 then "" else ", ") ++ tupleJoin rest (n + 1) total

/-- `gen_tuple`: parenthesized, comma-separated rendered items in declared
order; touches no imports. -/
def gen_tuple (t : TTuple) : String :=
  "(" ++ tupleJoin t.items 0 t.items.length ++ ")"

/-- One iteration of the field loop in `gen_struct`: the field's config
attribute lines, its documentation, and its `name: type,` line. -/
def renderField (imp : List String) (field : StructField) (indent_level : Nat) :
    String × List String :=
  let indent := spaces indent_level
  let fieldPfx := joinStrs (field.config.map (fun c =>
    match c with
    | StructFieldConfig.RustAttribute attr => "\n    " ++ indent ++ attr))
  let ti :=
    match field.field_type with
    | StructFieldType.Reference r => (r.name, imp)
    | StructFieldType.TMap m => gen_map imp m
    | StructFieldType.TOption o => gen_option imp o
    | StructFieldType.TPrimitive p => (gen_primitive_type p, imp)
    | StructFieldType.TTuple t => (gen_tuple t, imp)
    | StructFieldType.TVec v => gen_vec imp v
  let field_str := "\n    " ++ indent ++ field.name ++ ": " ++ ti.1 ++ ","
  let field_str :=
    match format_docstring field.docs CommentStyle.TripleSlash (indent_level + 4) with
    | some doc => "\n" ++ doc ++ field_str
    | none => field_str
  (fieldPfx ++ field_str, ti.2)

/-- The field loop of `gen_struct`, threading the import collector left to
right and concatenating the per-field text. -/
def gen_fields (imp : List String) (fs : List StructField) (indent_level : Nat) :
    String × List String :=
  match fs with
  | [] => ("", imp)
  | f :: rest =>
    let hd := renderField imp f indent_level
    let tl := gen_fields hd.2 rest indent_level
    (hd.1 ++ tl.1, tl.2)

/-- `gen_struct`: a brace-delimited field block at the given indentation. -/
def gen_struct (imp : List String) (s : TStruct) (indent_level : Nat) :
    String × List String :=
  let fl := gen_fields imp s.fields indent_level
  ("\x7b" ++ fl.1 ++ "\n" ++ spaces indent_level ++ "\x7d", fl.2)

/-- One iteration of the variant loop in `gen_enum`: the variant's payload,
its name line, and its documentation. -/
def renderVariant (imp : List String) (variant : EnumVariant) : String × List String :=
  let vt :=
    match variant.variant_type with
    | EnumVariantType.Empty => ("", imp)
    | EnumVariantType.Tuple t => (gen_tuple t, imp)
    | EnumVariantType.Struct s =>
      let st := gen_struct imp s 4
      (" " ++ st.1, st.2)
  let line := "\n    " ++ variant.name ++ vt.1 ++ ","
  let line :=
    match format_docstring variant.docs CommentStyle.TripleSlash 4 with
    | some doc => "\n" ++ doc ++ line
    | none => line
  (line, vt.2)

/-- The variant loop of `gen_enum`. -/
def gen_variants (imp : List String) (vs : List EnumVariant) : String × List String :=
  match vs with
  | [] => ("", imp)
  | v :: rest =>
    let hd := renderVariant imp v
    let tl := gen_variants hd.2 rest
    (hd.1 ++ tl.1, tl.2)

/-- `gen_enum`: a brace-delimited variant block. -/
def gen_enum (imp : List String) (e : TEnum) : String × List String :=
  let vl := gen_variants imp e.variants
  ("\x7b" ++ vl.1 ++ "\n\x7d", vl.2)

/-- The config loop of `gen_declaration`: each attribute verbatim, each
followed by a line break. -/
def configText (config : List TypeDeclarationConfig) : String :=
  joinStrs (config.map (fun c =>
    match c with
    | TypeDeclarationConfig.RustAttribute attr => attr ++ "\n"))

/-- The fixed derive line injected before every struct header. -/
def deriveLine : String := "#[derive(Debug, serde::Serialize, serde::Deserialize)]"

/-- The dispatch on `DeclarationValue` in `gen_declaration` producing the
declaration text `r` before documentation prefixing (the derive line for
structs goes to the prefix, not here). -/
def declBody (imp : List String) (declaration : TypeDeclaration) : String × List String :=
  match declaration.value with
  | DeclarationValue.TPrimitive p =>
    ("pub type " ++ declaration.name ++ " = " ++ gen_primitive_type p ++ ";", imp)
  | DeclarationValue.TMap m =>
    let g := gen_map imp m
    ("pub type " ++ declaration.name ++ " = " ++ g.1 ++ ";", g.2)
  | DeclarationValue.TTuple t =>
    ("pub type " ++ declaration.name ++ " = " ++ gen_tuple t ++ ";", imp)
  | DeclarationValue.TStruct s =>
    let g := gen_struct imp s 0
    ("pub struct " ++ declaration.name ++ " " ++ g.1, g.2)
  | DeclarationValue.TEnum e =>
    let g := gen_enum imp e
    ("pub enum " ++ declaration.name ++ " " ++ g.1, g.2)
  | DeclarationValue.Docs => ("", imp)

/-- The comment-style selection of `gen_declaration`: `DoubleSlash` for a
`Docs` declaration, `TripleSlash` otherwise. -/
def declCommentStyle (declaration : TypeDeclaration) : CommentStyle :=
  match declaration.value with
  | DeclarationValue.Docs => CommentStyle.DoubleSlash
  | _ => CommentStyle.TripleSlash

/-- `gen_declaration`: config attribute lines, the derive line for structs,
then the declaration body prefixed by its formatted documentation. -/
def gen_declaration (imp : List String) (declaration : TypeDeclaration) :
    String × List String :=
  let pfx := configText declaration.config ++
    (match declaration.value with
     | DeclarationValue.TStruct _ => deriveLine ++ "\n"
     | _ => "")
  let body := declBody imp declaration
  let r :=
    match format_docstring declaration.docs (declCommentStyle declaration) 0 with
    | some doc => doc ++ "\n" ++ body.1
    | none => body.1
  (pfx ++ r, body.2)

/-- The declaration loop of `gen_declarations`: each declaration's text
wrapped in a leading and a trailing newline, concatenated in input order,
threading the import collector. -/
def gen_decls_code (imp : List String) (ds : List TypeDeclaration) :
    String × List String :=
  match ds with
  | [] => ("", imp)
  | d :: rest =>
    let hd := gen_declaration imp d
    let tl := gen_decls_code hd.2 rest
    ("\n" ++ hd.1 ++ "\n" ++ tl.1, tl.2)

/-- The flushed import block: each collected statement followed by a line
break, in the collector's (sorted) order. -/
def importsText (l : List String) : String :=
  joinStrs (l.map (fun i => i ++ "\n"))

/-- `gen_declarations` generalized over the initial import-collector state
(the state the `RustCodegen` value holds). -/
def gen_declarations_with (rc : List String) (ds : Declarations) : String :=
  let body := gen_decls_code rc ds.declarations
  importsText body.2 ++ "\n" ++ body.1

/-- `gen_declarations`: creates a fresh `RustCodegen` (empty import
collector), renders all declarations, and prepends the flushed import block
followed by a blank line. -/
def gen_declarations (ds : Declarations) : String :=
  gen_declarations_with [] ds

/-- The final import-collector contents of one full rendering pass. -/
def passImports (ds : Declarations) : List String :=
  (gen_decls_code [] ds.declarations).2

/-- The Result-typed `gen_declaration` as the Rust signature has it: the body
is total, so it always returns `Ok`. Errors are `anyhow::Error`, modelled as
strings. -/
def gen_declarationE (imp : List String) (declaration : TypeDeclaration) :
    Except String (String × List String) :=
  Except.ok (gen_declaration imp declaration)

/-- The declaration loop with the `?` operator on `gen_declaration`
propagating any error. -/
def gen_decls_codeE (imp : List String) (ds : List TypeDeclaration) :
    Except String (String × List String) :=
  match ds with
  | [] => Except.ok ("", imp)
  | d :: rest => do
    let hd ← gen_declarationE imp d
    let tl ← gen_decls_codeE hd.2 rest
    Except.ok ("\n" ++ hd.1 ++ "\n" ++ tl.1, tl.2)

/-- The Result-typed `gen_declarations` of the `Codegen` trait. -/
def gen_declarationsE (ds : Declarations) : Except String String := do
  let body ← gen_decls_codeE [] ds.declarations
  Except.ok (importsText body.2 ++ "\n" ++ body.1)

/-- Outputs of two successive rendering passes over the same input; each pass
starts from the fresh, empty import collector that `RustCodegen::new`
creates, so no collector state flows from the first pass into the second. -/
def twoPassOutputs (ds : Declarations) : String × String :=
  let first := gen_declarations_with [] ds
  let second := gen_declarations_with [] ds
  (first, second)

/-- The rendered text of one struct field, independent of the collector
state (the text component of `renderField`). -/
def fieldText (indent_level : Nat) (field : StructField) : String :=
  (renderField [] field indent_level).1

/-- The rendered text of one enum variant, independent of the collector
state (the text component of `renderVariant`). -/
def variantText (variant : EnumVariant) : String :=
  (renderVariant [] variant).1

/-- Comma-separated concatenation: the shape the spec ascribes to tuple
bodies. -/
def commaSep : List String → String
  | [] => ""
  | [x] => x
  | x :: xs => x ++ ", " ++ commaSep xs

/-- The rendered text of one top-level declaration, independent of the
collector state (the text component of `gen_declaration`). -/
def declText (declaration : TypeDeclaration) : String :=
  (gen_declaration [] declaration).1

/-- Whether an `Option` shape directly wraps a `Map`. -/
def cmOption : TOption → Bool
  | TOption.TMap _ => true
  | _ => false

/-- Whether a struct-field shape contains a `Map` anywhere. -/
def cmFieldType : StructFieldType → Bool
  | StructFieldType.TMap _ => true
  | StructFieldType.TOption o => cmOption o
  | _ => false

/-- Whether a struct contains a `Map` anywhere in its fields. -/
def cmStruct (s : TStruct) : Bool :=
  s.fields.any (fun f => cmFieldType f.field_type)

/-- Whether an enum variant contains a `Map` anywhere. -/
def cmVariant (v : EnumVariant) : Bool :=
  match v.variant_type with
  | EnumVariantType.Struct s => cmStruct s
  | _ => false

/-- Whether a declaration contains a `Map` shape anywhere in its tree. -/
def cmDecl (d : TypeDeclaration) : Bool :=
  match d.value with
  | DeclarationValue.TMap _ => true
  | DeclarationValue.TStruct s => cmStruct s
  | DeclarationValue.TEnum e => e.variants.any cmVariant
  | _ => false

/-- Whether a `Declarations` value contains a `Map` shape anywhere. -/
def cmDecls (ds : Declarations) : Bool :=
  ds.declarations.any cmDecl

/-- Stated from the claim's words, for comparison with the source: the output
consists of the import block, a single blank line, and the rendered
declarations in input order separated by single blank lines. -/
def gen_declarations_claimed (ds : Declarations) : String :=
  let blankSep : List String → String :=
    fun l => String.intercalate "\n\n" l
  importsText (passImports ds) ++ "\n" ++ blankSep (ds.declarations.map declText)

/-- Whether `pat` occurs as a contiguous run inside `l` (sliding-window
prefix test). -/
def hasInfixB (pat : List Char) : List Char → Bool
  | [] => pat.isEmpty
  | c :: cs => pat.isPrefixOf (c :: cs) || hasInfixB pat cs

/-- Whether the string `pat` occurs contiguously inside `s`. -/
def strContainsB (s pat : String) : Bool :=
  hasInfixB pat.data s.data

/-- The text a struct declaration's documentation contributes between the
derive line and the struct header: the formatted doc comment followed by a
line break, or nothing when the docs are absent. -/
def docInsert (docs : String) : String :=
  match format_docstring docs CommentStyle.TripleSlash 0 with
  | some doc => doc ++ "\n"
  | none => ""

/-! Rendered text does not depend on the import-collector state: the
collector is a write-only side channel. These lemmas also expose each
construct's output as the concatenation, in declared order, of per-element
text. -/

theorem gen_map_fst (imp : List String) (m : TMap) :
    (gen_map imp m).1 = (gen_map [] m).1 := rfl

theorem gen_vec_fst (imp : List String) (v : TVec) :
    (gen_vec imp v).1 = (gen_vec [] v).1 := rfl

theorem gen_set_fst (imp : List String) (s : TSet) :
    (gen_set imp s).1 = (gen_set [] s).1 := rfl

theorem gen_option_fst (imp : List String) (o : TOption) :
    (gen_option imp o).1 = (gen_option [] o).1 := by
  cases o <;> rfl

theorem renderField_fst (imp : List String) (field : StructField) (lvl : Nat) :
    (renderField imp field lvl).1 = fieldText lvl field := by
  obtain ⟨n, d, cfg, ft⟩ := field
  cases ft <;> simp only [renderField, fieldText, gen_option_fst, gen_map_fst, gen_vec_fst]

theorem gen_fields_fst (fs : List StructField) :
    ∀ (imp : List String) (lvl : Nat),
      (gen_fields imp fs lvl).1 = joinStrs (fs.map (fieldText lvl)) := by
  induction fs with
  | nil => intro imp lvl; rfl
  | cons f rest ih =>
    intro imp lvl
    simp only [gen_fields, List.map_cons, joinStrs]
    rw [renderField_fst, ih]

theorem gen_struct_fst (imp : List String) (s : TStruct) (lvl : Nat) :
    (gen_struct imp s lvl).1 =
      "\x7b" ++ joinStrs (s.fields.map (fieldText lvl)) ++ "\n" ++ spaces lvl ++ "\x7d" := by
  simp only [gen_struct]
  rw [gen_fields_fst]

theorem renderVariant_fst (imp : List String) (v : EnumVariant) :
    (renderVariant imp v).1 = variantText v := by
  obtain ⟨n, d, vt⟩ := v
  cases vt <;> simp only [renderVariant, variantText, gen_struct_fst]

theorem gen_variants_fst (vs : List EnumVariant) :
    ∀ imp : List String, (gen_variants imp vs).1 = joinStrs (vs.map variantText) := by
  induction vs with
  | nil => intro imp; rfl
  | cons v rest ih =>
    intro imp
    simp only [gen_variants, List.map_cons, joinStrs]
    rw [renderVariant_fst, ih]

theorem gen_enum_fst (imp : List String) (e : TEnum) :
    (gen_enum imp e).1 = "\x7b" ++ joinStrs (e.variants.map variantText) ++ "\n\x7d" := by
  simp only [gen_enum]
  rw [gen_variants_fst]

theorem declBody_fst (imp : List String) (d : TypeDeclaration) :
    (declBody imp d).1 = (declBody [] d).1 := by
  obtain ⟨n, dc, cfg, v⟩ := d
  cases v <;> simp only [declBody, gen_map_fst, gen_struct_fst, gen_enum_fst]

theorem gen_declaration_fst (imp : List String) (d : TypeDeclaration) :
    (gen_declaration imp d).1 = declText d := by
  simp only [gen_declaration, declText, declBody_fst]

theorem gen_decls_code_fst (ds : List TypeDeclaration) :
    ∀ imp : List String,
      (gen_decls_code imp ds).1 = joinStrs (ds.map (fun d => "\n" ++ declText d ++ "\n")) := by
  induction ds with
  | nil => intro imp; rfl
  | cons d rest ih =>
    intro imp
    simp only [gen_decls_code, List.map_cons, joinStrs]
    rw [gen_declaration_fst, ih]

/-! Properties of the import collector. -/

theorem mem_insertImport {a s : String} {l : List String} :
    a ∈ insertImport l s ↔ a = s ∨ a ∈ l := by
  induction l with
  | nil => simp [insertImport]
  | cons x xs ih =>
    by_cases h1 : s < x
    · simp [insertImport, h1, List.mem_cons]
    · by_cases h2 : s = x
      · subst h2
        simp [insertImport, h1, List.mem_cons]
      · simp [insertImport, h1, h2, List.mem_cons, ih]
        tauto

theorem self_mem_insertImport (l : List String) (s : String) : s ∈ insertImport l s :=
  mem_insertImport.2 (Or.inl rfl)

theorem mem_insertImport_of_mem {a : String} {l : List String} (s : String)
    (h : a ∈ l) : a ∈ insertImport l s :=
  mem_insertImport.2 (Or.inr h)

theorem insertImport_sorted {l : List String} {s : String}
    (h : List.Sorted (· < ·) l) : List.Sorted (· < ·) (insertImport l s) := by
  induction l with
  | nil => simp [insertImport]
  | cons x xs ih =>
    rw [List.sorted_cons] at h
    by_cases h1 : s < x
    · rw [insertImport, if_pos h1, List.sorted_cons]
      refine ⟨?_, List.sorted_cons.2 h⟩
      intro b hb
      rcases List.mem_cons.1 hb with hb | hb
      · exact hb ▸ h1
      · exact lt_trans h1 (h.1 b hb)
    · by_cases h2 : s = x
      · rw [insertImport, if_neg h1, if_pos h2]
        exact List.sorted_cons.2 h
      · rw [insertImport, if_neg h1, if_neg h2, List.sorted_cons]
        refine ⟨?_, ih h.2⟩
        intro b hb
        rcases mem_insertImport.1 hb with hb | hb
        · exact hb ▸ lt_of_le_of_ne (le_of_not_lt h1) (Ne.symm h2)
        · exact h.1 b hb

theorem insertImport_idem (l : List String) (s : String) :
    insertImport (insertImport l s) s = insertImport l s := by
  induction l with
  | nil => simp [insertImport, lt_irrefl]
  | cons x xs ih =>
    by_cases h1 : s < x
    · simp [insertImport, h1, lt_irrefl]
    · by_cases h2 : s = x
      · simp [insertImport, h1, h2]
      · simp [insertImport, h1, h2, ih]

/-! Membership in the collector is preserved by every rendering step. -/

theorem mem_gen_option_snd {a : String} (imp : List String) (o : TOption)
    (h : a ∈ imp) : a ∈ (gen_option imp o).2 := by
  cases o with
  | Reference r => exact h
  | TPrimitive p => exact h
  | TMap m => exact mem_insertImport_of_mem _ h
  | TVec v => exact h
  | TSet s => exact mem_insertImport_of_mem _ h

theorem mem_renderField_snd {a : String} (imp : List String) (field : StructField)
    (lvl : Nat) (h : a ∈ imp) : a ∈ (renderField imp field lvl).2 := by
  obtain ⟨n, d, cfg, ft⟩ := field
  cases ft with
  | Reference r => exact h
  | TMap m => exact mem_insertImport_of_mem _ h
  | TOption o => exact mem_gen_option_snd imp o h
  | TPrimitive p => exact h
  | TTuple t => exact h
  | TVec v => exact h

theorem mem_gen_fields_snd {a : String} (fs : List StructField) :
    ∀ (imp : List String) (lvl : Nat), a ∈ imp → a ∈ (gen_fields imp fs lvl).2 := by
  induction fs with
  | nil => intro imp lvl h; exact h
  | cons f rest ih =>
    intro imp lvl h
    exact ih _ lvl (mem_renderField_snd imp f lvl h)

theorem mem_gen_struct_snd {a : String} (imp : List String) (s : TStruct) (lvl : Nat)
    (h : a ∈ imp) : a ∈ (gen_struct imp s lvl).2 :=
  mem_gen_fields_snd s.fields imp lvl h

theorem mem_renderVariant_snd {a : String} (imp : List String) (v : EnumVariant)
    (h : a ∈ imp) : a ∈ (renderVariant imp v).2 := by
  obtain ⟨n, d, vt⟩ := v
  cases vt with
  | Empty => exact h
  | Tuple t => exact h
  | Struct s => exact mem_gen_struct_snd imp s 4 h

theorem mem_gen_variants_snd {a : String} (vs : List EnumVariant) :
    ∀ imp : List String, a ∈ imp → a ∈ (gen_variants imp vs).2 := by
  induction vs with
  | nil => intro imp h; exact h
  | cons v rest ih =>
    intro imp h
    exact ih _ (mem_renderVariant_snd imp v h)

theorem mem_gen_enum_snd {a : String} (imp : List String) (e : TEnum)
    (h : a ∈ imp) : a ∈ (gen_enum imp e).2 :=
  mem_gen_variants_snd e.variants imp h

theorem mem_declBody_snd {a : String} (imp : List String) (d : TypeDeclaration)
    (h : a ∈ imp) : a ∈ (declBody imp d).2 := by
  obtain ⟨n, dc, cfg, v⟩ := d
  cases v with
  | TPrimitive p => exact h
  | TMap m => exact mem_insertImport_of_mem _ h
  | TTuple t => exact h
  | TStruct s => exact mem_gen_struct_snd imp s 0 h
  | TEnum e => exact mem_gen_enum_snd imp e h
  | Docs => exact h

theorem mem_gen_declaration_snd {a : String} (imp : List String) (d : TypeDeclaration)
    (h : a ∈ imp) : a ∈ (gen_declaration imp d).2 :=
  mem_declBody_snd imp d h

theorem mem_gen_decls_code_snd {a : String} (ds : List TypeDeclaration) :
    ∀ imp : List String, a ∈ imp → a ∈ (gen_decls_code imp ds).2 := by
  induction ds with
  | nil => intro imp h; exact h
  | cons d rest ih =>
    intro imp h
    exact ih _ (mem_gen_declaration_snd imp d h)

/-! Every rendering step keeps the collector strictly sorted. -/

theorem sorted_gen_option_snd (imp : List String) (o : TOption)
    (h : List.Sorted (· < ·) imp) : List.Sorted (· < ·) (gen_option imp o).2 := by
  cases o with
  | Reference r => exact h
  | TPrimitive p => exact h
  | TMap m => exact insertImport_sorted h
  | TVec v => exact h
  | TSet s => exact insertImport_sorted h

theorem sorted_renderField_snd (imp : List String) (field : StructField) (lvl : Nat)
    (h : List.Sorted (· < ·) imp) : List.Sorted (· < ·) (renderField imp field lvl).2 := by
  obtain ⟨n, d, cfg, ft⟩ := field
  cases ft with
  | Reference r => exact h
  | TMap m => exact insertImport_sorted h
  | TOption o => exact sorted_gen_option_snd imp o h
  | TPrimitive p => exact h
  | TTuple t => exact h
  | TVec v => exact h

theorem sorted_gen_fields_snd (fs : List StructField) :
    ∀ (imp : List String) (lvl : Nat), List.Sorted (· < ·) imp →
      List.Sorted (· < ·) (gen_fields imp fs lvl).2 := by
  induction fs with
  | nil => intro imp lvl h; exact h
  | cons f rest ih =>
    intro imp lvl h
    exact ih _ lvl (sorted_renderField_snd imp f lvl h)

theorem sorted_gen_struct_snd (imp : List String) (s : TStruct) (lvl : Nat)
    (h : List.Sorted (· < ·) imp) : List.Sorted (· < ·) (gen_struct imp s lvl).2 :=
  sorted_gen_fields_snd s.fields imp lvl h

theorem sorted_renderVariant_snd (imp : List String) (v : EnumVariant)
    (h : List.Sorted (· < ·) imp) : List.Sorted (· < ·) (renderVariant imp v).2 := by
  obtain ⟨n, d, vt⟩ := v
  cases vt with
  | Empty => exact h
  | Tuple t => exact h
  | Struct s => exact sorted_gen_struct_snd imp s 4 h

theorem sorted_gen_variants_snd (vs : List EnumVariant) :
    ∀ imp : List String, List.Sorted (· < ·) imp →
      List.Sorted (· < ·) (gen_variants imp vs).2 := by
  induction vs with
  | nil => intro imp h; exact h
  | cons v rest ih =>
    intro imp h
    exact ih _ (sorted_renderVariant_snd imp v h)

theorem sorted_gen_enum_snd (imp : List String) (e : TEnum)
    (h : List.Sorted (· < ·) imp) : List.Sorted (· < ·) (gen_enum imp e).2 :=
  sorted_gen_variants_snd e.variants imp h

theorem sorted_declBody_snd (imp : List String) (d : TypeDeclaration)
    (h : List.Sorted (· < ·) imp) : List.Sorted (· < ·) (declBody imp d).2 := by
  obtain ⟨n, dc, cfg, v⟩ := d
  cases v with
  | TPrimitive p => exact h
  | TMap m => exact insertImport_sorted h
  | TTuple t => exact h
  | TStruct s => exact sorted_gen_struct_snd imp s 0 h
  | TEnum e => exact sorted_gen_enum_snd imp e h
  | Docs => exact h

theorem sorted_gen_declaration_snd (imp : List String) (d : TypeDeclaration)
    (h : List.Sorted (· < ·) imp) : List.Sorted (· < ·) (gen_declaration imp d).2 :=
  sorted_declBody_snd imp d h

theorem sorted_gen_decls_code_snd (ds : List TypeDeclaration) :
    ∀ imp : List String, List.Sorted (· < ·) imp →
      List.Sorted (· < ·) (gen_decls_code imp ds).2 := by
  induction ds with
  | nil => intro imp h; exact h
  | cons d rest ih =>
    intro imp h
    exact ih _ (sorted_gen_declaration_snd imp d h)

theorem passImports_sorted (ds : Declarations) :
    List.Sorted (· < ·) (passImports ds) :=
  sorted_gen_decls_code_snd ds.declarations [] List.sorted_nil

/-! A `Map` shape anywhere forces the ordered-map import into the collector. -/

theorem map_mem_gen_option_snd (imp : List String) (o : TOption)
    (h : cmOption o = true) : btreeMapImport ∈ (gen_option imp o).2 := by
  cases o with
  | TMap m => exact self_mem_insertImport imp btreeMapImport
  | Reference r => simp [cmOption] at h
  | TPrimitive p => simp [cmOption] at h
  | TVec v => simp [cmOption] at h
  | TSet s => simp [cmOption] at h

theorem map_mem_renderField_snd (imp : List String) (field : StructField) (lvl : Nat)
    (h : cmFieldType field.field_type = true) :
    btreeMapImport ∈ (renderField imp field lvl).2 := by
  obtain ⟨n, d, cfg, ft⟩ := field
  cases ft with
  | TMap m => exact self_mem_insertImport imp btreeMapImport
  | TOption o => exact map_mem_gen_option_snd imp o h
  | Reference r => simp [cmFieldType] at h
  | TPrimitive p => simp [cmFieldType] at h
  | TTuple t => simp [cmFieldType] at h
  | TVec v => simp [cmFieldType] at h

theorem map_mem_gen_fields_snd (fs : List StructField) :
    ∀ (imp : List String) (lvl : Nat),
      fs.any (fun f => cmFieldType f.field_type) = true →
      btreeMapImport ∈ (gen_fields imp fs lvl).2 := by
  induction fs with
  | nil => intro imp lvl h; simp at h
  | cons f rest ih =>
    intro imp lvl h
    rw [List.any_cons, Bool.or_eq_true] at h
    rcases h with h | h
    · exact mem_gen_fields_snd rest _ lvl (map_mem_renderField_snd imp f lvl h)
    · exact ih _ lvl h

theorem map_mem_gen_struct_snd (imp : List String) (s : TStruct) (lvl : Nat)
    (h : cmStruct s = true) : btreeMapImport ∈ (gen_struct imp s lvl).2 :=
  map_mem_gen_fields_snd s.fields imp lvl h

theorem map_mem_renderVariant_snd (imp : List String) (v : EnumVariant)
    (h : cmVariant v = true) : btreeMapImport ∈ (renderVariant imp v).2 := by
  obtain ⟨n, d, vt⟩ := v
  cases vt with
  | Struct s => exact map_mem_gen_struct_snd imp s 4 h
  | Empty => simp [cmVariant] at h
  | Tuple t => simp [cmVariant] at h

theorem map_mem_gen_variants_snd (vs : List EnumVariant) :
    ∀ imp : List String, vs.any cmVariant = true →
      btreeMapImport ∈ (gen_variants imp vs).2 := by
  induction vs with
  | nil => intro imp h; simp at h
  | cons v rest ih =>
    intro imp h
    rw [List.any_cons, Bool.or_eq_true] at h
    rcases h with h | h
    · exact mem_gen_variants_snd rest _ (map_mem_renderVariant_snd imp v h)
    · exact ih _ h

theorem map_mem_declBody_snd (imp : List String) (d : TypeDeclaration)
    (h : cmDecl d = true) : btreeMapImport ∈ (declBody imp d).2 := by
  obtain ⟨n, dc, cfg, v⟩ := d
  cases v with
  | TMap m => exact self_mem_insertImport imp btreeMapImport
  | TStruct s => exact map_mem_gen_struct_snd imp s 0 h
  | TEnum e => exact map_mem_gen_variants_snd e.variants imp h
  | TPrimitive p => simp [cmDecl] at h
  | TTuple t => simp [cmDecl] at h
  | Docs => simp [cmDecl] at h

theorem map_mem_gen_declaration_snd (imp : List String) (d : TypeDeclaration)
    (h : cmDecl d = true) : btreeMapImport ∈ (gen_declaration imp d).2 :=
  map_mem_declBody_snd imp d h

theorem map_mem_gen_decls_code_snd (ds : List TypeDeclaration) :
    ∀ imp : List String, ds.any cmDecl = true →
      btreeMapImport ∈ (gen_decls_code imp ds).2 := by
  induction ds with
  | nil => intro imp h; simp at h
  | cons d rest ih =>
    intro imp h
    rw [List.any_cons, Bool.or_eq_true] at h
    rcases h with h | h
    · exact mem_gen_decls_code_snd rest _ (map_mem_gen_declaration_snd imp d h)
    · exact ih _ h

theorem map_mem_passImports (ds : Declarations) (h : cmDecls ds = true) :
    btreeMapImport ∈ passImports ds :=
  map_mem_gen_decls_code_snd ds.declarations [] h

/-! The tuple loop produces a comma-separated list. -/

theorem tupleJoin_eq (items : List TupleItem) :
    ∀ n : Nat, tupleJoin items n (n + items.length) = commaSep (items.map tupleItemText) := by
  induction items with
  | nil => intro n; rfl
  | cons item rest ih =>
    intro n
    cases rest with
    | nil =>
      simp [tupleJoin, commaSep, List.map_cons, String.append_empty]
    | cons r rs =>
      rw [tupleJoin]
      rw [if_neg (by simp [List.length_cons]; try omega)]
      rw [show n + (item :: r :: rs).length = (n + 1) + (r :: rs).length from by
        simp [List.length_cons]; try omega]
      rw [ih (n + 1)]
      simp only [List.map_cons, commaSep]

theorem gen_tuple_eq (t : TTuple) :
    gen_tuple t = "(" ++ commaSep (t.items.map tupleItemText) ++ ")" := by
  have h := tupleJoin_eq t.items 0
  rw [Nat.zero_add] at h
  rw [gen_tuple, h]

/-! A contiguous occurrence can be established from an explicit split. -/

theorem isPrefixOf_append_self (l t : List Char) : l.isPrefixOf (l ++ t) = true := by
  induction l with
  | nil => cases t <;> rfl
  | cons c cs ih => simp [List.isPrefixOf, ih]

theorem hasInfixB_cons (pat : List Char) (c : Char) (l : List Char)
    (h : hasInfixB pat l = true) : hasInfixB pat (c :: l) = true := by
  rw [hasInfixB]
  simp [h]

theorem hasInfixB_of_isPrefixOf {pat l : List Char} (h : pat.isPrefixOf l = true) :
    hasInfixB pat l = true := by
  cases l with
  | nil =>
    cases pat with
    | nil => rfl
    | cons p ps => simp [List.isPrefixOf] at h
  | cons c cs =>
    rw [hasInfixB]
    simp [h]

theorem hasInfixB_append (pre pat post : List Char) :
    hasInfixB pat (pre ++ (pat ++ post)) = true := by
  induction pre with
  | nil => exact hasInfixB_of_isPrefixOf (isPrefixOf_append_self pat post)
  | cons c cs ih => exact hasInfixB_cons _ c _ ih

theorem hasInfixB_of_parts {pat l : List Char} (h : pat <:+: l) :
    hasInfixB pat l = true := by
  obtain ⟨s, t, rfl⟩ := h
  rw [List.append_assoc]
  exact hasInfixB_append s pat t

/-! The Result-typed pipeline never produces an error. -/

theorem gen_decls_codeE_eq (ds : List TypeDeclaration) :
    ∀ imp : List String, gen_decls_codeE imp ds = Except.ok (gen_decls_code imp ds) := by
  induction ds with
  | nil => intro imp; rfl
  | cons d rest ih =>
    intro imp
    simp only [gen_decls_codeE, gen_declarationE, gen_decls_code, ih]
    rfl

/-- The assembled output of a full pass: the flushed import block, one
newline, then each declaration's text wrapped in a leading and a trailing
newline, in input order. -/
theorem gen_declarations_shape (ds : Declarations) :
    gen_declarations ds =
      importsText (passImports ds) ++ "\n" ++
        joinStrs (ds.declarations.map (fun d => "\n" ++ declText d ++ "\n")) := by
  simp only [gen_declarations, gen_declarations_with, passImports]
  rw [gen_decls_code_fst]

/-- Claim C6: the primitive-type mapping is total and fixed — every
`TPrimitive` renders to a non-empty constant string, with the four stated
spellings, and `gen_primitive_type` never fails. -/
theorem claim_C6_primitive_total :
    (∀ p : TPrimitive, gen_primitive_type p ≠ "") ∧
    gen_primitive_type TPrimitive.String = "String" ∧
    gen_primitive_type TPrimitive.Tbool = "bool" ∧
    gen_primitive_type TPrimitive.Ti64 = "i64" ∧
    gen_primitive_type TPrimitive.Tf64 = "f64" := by
  refine ⟨?_, rfl, rfl, rfl, rfl⟩
  intro p
  cases p <;> decide

/-- Claim C10: on the empty `Declarations` sequence the output is exactly one
newline character — an empty import block, the separating newline, and no
declaration text. -/
theorem claim_C10_empty_output :
    gen_declarations { declarations := [] } = "\n" := rfl

/-- Claim C3: rendering the same unmutated input twice produces byte-identical
output; each pass starts from the fresh, empty import collector created by
`RustCodegen::new`, so no collector state persists across passes. -/
theorem claim_C3_determinism :
    ∀ ds : Declarations,
      (twoPassOutputs ds).1 = (twoPassOutputs ds).2 ∧
      (twoPassOutputs ds).1 = gen_declarations ds :=
  fun _ => ⟨rfl, rfl⟩

/-- Claim C5: the Result-typed pipeline returns `Ok` on every input — no
shape of the closed enumerations can make `gen_declarations` fail. -/
theorem claim_C5_never_errors :
    ∀ ds : Declarations, gen_declarationsE ds = Except.ok (gen_declarations ds) := by
  intro ds
  simp only [gen_declarationsE, gen_decls_codeE_eq]
  rfl

/-- Claim C9: every tuple renders as a parenthesized comma-separated list of
its items in declared order, and the empty tuple renders as `()` — the
`items.len() - 1` computation is never reached for an empty tuple. -/
theorem claim_C9_tuple :
    (∀ t : TTuple, gen_tuple t = "(" ++ commaSep (t.items.map tupleItemText) ++ ")") ∧
    gen_tuple { items := [] } = "()" :=
  ⟨gen_tuple_eq, rfl⟩

/-- Claim C8: struct fields, enum variants, tuple items, and top-level
declarations appear in the output as the concatenation of their per-element
renderings in exactly declared order, while the import block is sorted
independently of declaration order. -/
theorem claim_C8_ordering :
    (∀ (imp : List String) (s : TStruct) (lvl : Nat),
        (gen_struct imp s lvl).1 =
          "\x7b" ++ joinStrs (s.fields.map (fieldText lvl)) ++ "\n" ++ spaces lvl ++ "\x7d") ∧
    (∀ (imp : List String) (e : TEnum),
        (gen_enum imp e).1 = "\x7b" ++ joinStrs (e.variants.map variantText) ++ "\n\x7d") ∧
    (∀ t : TTuple, gen_tuple t = "(" ++ commaSep (t.items.map tupleItemText) ++ ")") ∧
    (∀ ds : Declarations,
        gen_declarations ds =
          importsText (passImports ds) ++ "\n" ++
            joinStrs (ds.declarations.map (fun d => "\n" ++ declText d ++ "\n"))) ∧
    (∀ ds : Declarations, List.Sorted (· < ·) (passImports ds)) :=
  ⟨gen_struct_fst, gen_enum_fst, gen_tuple_eq, gen_declarations_shape, passImports_sorted⟩

/-- Claim C4: a `Map` shape anywhere in the tree puts exactly one ordered-map
use statement in the final collector, however many times maps occur, and
registering a use statement is idempotent. -/
theorem claim_C4_import_idempotence :
    (∀ ds : Declarations, cmDecls ds = true →
        List.count btreeMapImport (passImports ds) = 1) ∧
    (∀ (l : List String) (s : String),
        insertImport (insertImport l s) s = insertImport l s) := by
  constructor
  · intro ds h
    exact List.count_eq_one_of_mem (passImports_sorted ds).nodup (map_mem_passImports ds h)
  · exact insertImport_idem

/-- Witness for C4: a concrete input with two `Map` occurrences satisfies the
hypothesis and yields an import count of one. -/
theorem claim_C4_witness :
    cmDecls { declarations :=
      [{ name := "A", docs := "", config := [],
         value := DeclarationValue.TMap
           { key := TPrimitive.String, value := TMapValue.TPrimitive TPrimitive.Ti64 } },
       { name := "B", docs := "", config := [],
         value := DeclarationValue.TMap
           { key := TPrimitive.String, value := TMapValue.Reference { name := "A" } } }] } = true ∧
    List.count btreeMapImport (passImports { declarations :=
      [{ name := "A", docs := "", config := [],
         value := DeclarationValue.TMap
           { key := TPrimitive.String, value := TMapValue.TPrimitive TPrimitive.Ti64 } },
       { name := "B", docs := "", config := [],
         value := DeclarationValue.TMap
           { key := TPrimitive.String, value := TMapValue.Reference { name := "A" } } }] }) = 1 :=
  ⟨by decide, claim_C4_import_idempotence.1 _ (by decide)⟩

/-- Claim C7: the comment style for a declaration's docs is the plain
double-slash style exactly when the value is the `Docs` variant, and a
`Docs` declaration contributes no declaration text of its own. -/
theorem claim_C7_comment_style :
    ∀ d : TypeDeclaration,
      (declCommentStyle d = CommentStyle.DoubleSlash ↔ d.value = DeclarationValue.Docs) ∧
      (d.value = DeclarationValue.Docs → ∀ imp : List String, declBody imp d = ("", imp)) := by
  intro d
  obtain ⟨n, dc, cfg, v⟩ := d
  cases v <;> simp [declCommentStyle, declBody]

/-- Witness for C7: a concrete `Docs` declaration selects the double-slash
style and contributes an empty declaration body. -/
theorem claim_C7_witness :
    declCommentStyle
        { name := "X", docs := "Section: identifiers", config := [],
          value := DeclarationValue.Docs } = CommentStyle.DoubleSlash ∧
    declBody []
        { name := "X", docs := "Section: identifiers", config := [],
          value := DeclarationValue.Docs } = ("", []) :=
  ⟨(claim_C7_comment_style _).1.2 rfl, (claim_C7_comment_style _).2 rfl []⟩

/-- Counterexample to C2 as stated: with one primitive-alias declaration the
output carries an extra blank line between the import block and the first
declaration (and a trailing newline), so it is not import block + single
blank line + blank-line-separated declarations. -/
theorem claim_C2_counterexample :
    gen_declarations { declarations :=
      [{ name := "A", docs := "", config := [],
         value := DeclarationValue.TPrimitive TPrimitive.Ti64 }] } ≠
    gen_declarations_claimed { declarations :=
      [{ name := "A", docs := "", config := [],
         value := DeclarationValue.TPrimitive TPrimitive.Ti64 }] } := by
  decide

/-- Claim C2 (amended): the output is the deduplicated, sorted import block
(one statement per line), one newline, and then, for each declaration in
input order, a blank line, the rendered declaration, and a newline — so
consecutive declarations are separated by single blank lines, two blank
lines follow the import block, and the output ends with a newline. -/
theorem claim_C2_assembly :
    ∀ ds : Declarations,
      gen_declarations ds =
        importsText (passImports ds) ++ "\n" ++
          joinStrs (ds.declarations.map (fun d => "\n" ++ declText d ++ "\n")) :=
  gen_declarations_shape

/-- Counterexample to C1 as stated: for a struct declaration with docs
present, the formatted doc comment sits between the derive marker and the
`pub struct` header, so the marker is not immediately before the header
line. -/
theorem claim_C1_counterexample :
    strContainsB
      (gen_declaration []
        { name := "Profile", docs := "Represents a user.", config := [],
          value := DeclarationValue.TStruct { fields := [] } }).1
      (deriveLine ++ "\n" ++ "pub struct " ++ "Profile" ++ " " ++ "\x7b") = false := by
  decide

/-- Claim C1 (amended): every struct declaration carries the fixed derive
marker after its config attribute lines; the marker is followed by the
formatted docs (when present) and then the `pub struct` header, so it stands
immediately before the header exactly when the docs are absent; config
entries only add extra attribute lines before the marker and never replace
it. -/
theorem claim_C1_derive_marker :
    ∀ (imp : List String) (d : TypeDeclaration) (s : TStruct),
      d.value = DeclarationValue.TStruct s →
      ((gen_declaration imp d).1 =
        configText d.config ++ deriveLine ++ "\n" ++ docInsert d.docs ++
          "pub struct " ++ d.name ++ " " ++ (gen_struct imp s 0).1) ∧
      (d.docs = "" →
        strContainsB (gen_declaration imp d).1
          (deriveLine ++ "\n" ++ "pub struct " ++ d.name ++ " " ++ "\x7b") = true) := by
  intro imp d s hv
  obtain ⟨n, dc, cfg, v⟩ := d
  cases v <;> cases hv
  have heq : (gen_declaration imp
      { name := n, docs := dc, config := cfg, value := DeclarationValue.TStruct s }).1 =
      configText cfg ++ deriveLine ++ "\n" ++ docInsert dc ++
        "pub struct " ++ n ++ " " ++ (gen_struct imp s 0).1 := by
    cases hdoc : format_docstring dc CommentStyle.TripleSlash 0 <;>
      simp only [gen_declaration, declBody, declCommentStyle, docInsert, hdoc,
        String.append_assoc, String.append_empty]
  refine ⟨heq, ?_⟩
  intro hdocs
  subst hdocs
  rw [strContainsB]
  apply hasInfixB_of_parts
  refine ⟨(configText cfg).data,
    (joinStrs (s.fields.map (fieldText 0)) ++ "\n" ++ spaces 0 ++ "\x7d").data, ?_⟩
  rw [heq]
  have hnone : docInsert "" = "" := rfl
  rw [hnone, String.append_empty, gen_struct_fst]
  simp [String.data_append, List.append_assoc]

/-- Witness for C1: a concrete undocumented struct declaration with one
config attribute satisfies both hypotheses, placing the derive marker
immediately before the header. -/
theorem claim_C1_witness :
    strContainsB
      (gen_declaration []
        { name := "Point", docs := "",
          config := [TypeDeclarationConfig.RustAttribute "#[allow(dead_code)]"],
          value := DeclarationValue.TStruct { fields := [] } }).1
      (deriveLine ++ "\n" ++ "pub struct " ++ "Point" ++ " " ++ "\x7b") = true :=
  (claim_C1_derive_marker []
    { name := "Point", docs := "",
      config := [TypeDeclarationConfig.RustAttribute "#[allow(dead_code)]"],
      value := DeclarationValue.TStruct { fields := [] } }
    { fields := [] } rfl).2 rfl
